import Mathlib

/-!
Verification of the MomentStitcher stitching core.

The repository stitches ordered groups of images into vertical "long
images".  Two engines implement the same pipeline:

* `src/image_stitcher.py`, class `ImageStitcher`, method `stitch_images`
  (the CLI engine), and
* `src/gui_stitcher.py`, class `ImageStitcherThread`, method `run`
  (the GUI worker thread).

This file embeds both engines shallowly.  Geometry (widths, heights) is
modelled with `Nat`.  Python computes the rescaled height as
`int(img.height * (min_width / img.width))`; for positive widths this is
the floor of the exact ratio, which we model as Nat division
`height * target / width` (the binary floating-point detour cannot be
modelled exactly; all concrete inputs used below evaluate identically in
float and exact arithmetic).  Likewise the progress percentage
`int(current_step / total_steps * 100)` is modelled as
`current_step * 100 / total_steps`.

A decoded raster always has positive dimensions; theorems that need
positivity of a width state it as a hypothesis.
-/

namespace MomentStitcher

/-- An in-memory raster's geometry after color normalization (normalization
never changes dimensions, proved for the pixel model below). -/
structure Img where
  width : Nat
  height : Nat
deriving Repr, DecidableEq

/-- Outcome of `Image.open` plus color normalization for one group member:
`some img` when the member decoded, `none` when the `try` block raised and
the member was skipped. -/
abbrev Member := Option Img

/-- Python's `float('inf')` sentinel as used for `min_width`: either still
the sentinel or a finite pixel width. -/
inductive MinW where
  | inf : MinW
  | fin : Nat → MinW
deriving Repr, DecidableEq

/-- One update `min_width = min(min_width, img.width)`. -/
def minwStep : MinW → Nat → MinW
  | MinW.inf, w => MinW.fin w
  | MinW.fin m, w => MinW.fin (Nat.min m w)

/-- One finished artifact: output file name, raster width, the list of
rescaled member heights in member order, the raster height, and the paste
operations `(y_offset, resized image)` in paste order. -/
structure Artifact where
  name : String
  width : Nat
  heights : List Nat
  height : Nat
  pastes : List (Nat × Img)
deriving Repr, DecidableEq

namespace ImageStitcherThread

/-- `pil_images` after the load loop of `ImageStitcherThread.run`: the
members whose `try` body succeeded, in member order. -/
def survivors (g : List Member) : List Img := g.filterMap id

/-- `min_width` after the load loop: fold of `min(min_width, img.width)`
over the successfully loaded images, starting from `float('inf')`. -/
def min_width (imgs : List Img) : MinW :=
  imgs.foldl (fun acc i => minwStep acc i.width) MinW.inf

/-- `new_height = int(img.height * scale_ratio)` with
`scale_ratio = min_width / img.width`: floor of the exact ratio. -/
def new_height (t : Nat) (i : Img) : Nat := i.height * t / i.width

/-- `img.resize((min_width, new_height), ...)` — geometry only. -/
def resize (t : Nat) (i : Img) : Img := ⟨t, new_height t i⟩

/-- The `y_offset` paste loop: paste each resized image at the running
offset, then advance the offset by the pasted image's height. -/
def pastes : List Img → Nat → List (Nat × Img)
  | [], _ => []
  | i :: rest, y => (y, i) :: pastes rest (y + i.height)

/-- Output file name: the fixed base name when the job supplied exactly one
group, otherwise `part` plus the 1-based original group index. -/
def output_name (total_groups group_num : Nat) : String :=
  if total_groups = 1 then "stitched_long_image.jpg"
  else "stitched_long_image_part" ++ toString (group_num + 1) ++ ".jpg"

/-- The artifact built for one group once `pil_images` is non-empty and the
target width `t` is known: resize every survivor, accumulate
`total_height`, allocate `(t, total_height)` and paste sequentially. -/
def stitched (total_groups group_num t : Nat) (surv : List Img) : Artifact :=
  let rs := surv.map (resize t)
  { name := output_name total_groups group_num
    width := t
    heights := rs.map Img.height
    height := (rs.map Img.height).foldl (· + ·) 0
    pastes := pastes rs 0 }

/-- Per-group outcome of the GUI engine: `none` when the group is skipped
(`len(group_images) < 2`, or no member survived loading), otherwise the
finished artifact. -/
def group_artifact (total_groups group_num : Nat) (g : List Member) : Option Artifact :=
  if g.length < 2 then none
  else
    match min_width (survivors g) with
    | MinW.inf => none
    | MinW.fin t => some (stitched total_groups group_num t (survivors g))

end ImageStitcherThread

namespace ImageStitcher

/-- `temp_images` after the load loop of `ImageStitcher.stitch_images`. -/
def survivors (g : List Member) : List Img := g.filterMap id

/-- `min_width` fold of the CLI engine. -/
def min_width (imgs : List Img) : MinW :=
  imgs.foldl (fun acc i => minwStep acc i.width) MinW.inf

/-- `new_height = int(img.height * scale_ratio)` in the CLI engine. -/
def new_height (t : Nat) (i : Img) : Nat := i.height * t / i.width

/-- CLI resize — geometry only. -/
def resize (t : Nat) (i : Img) : Img := ⟨t, new_height t i⟩

/-- CLI `y_offset` paste loop. -/
def pastes : List Img → Nat → List (Nat × Img)
  | [], _ => []
  | i :: rest, y => (y, i) :: pastes rest (y + i.height)

/-- CLI output file name. -/
def output_name (total_groups group_num : Nat) : String :=
  if total_groups = 1 then "stitched_long_image.jpg"
  else "stitched_long_image_part" ++ toString (group_num + 1) ++ ".jpg"

/-- CLI per-group stitching once `temp_images` is non-empty. -/
def stitched (total_groups group_num t : Nat) (surv : List Img) : Artifact :=
  let rs := surv.map (resize t)
  { name := output_name total_groups group_num
    width := t
    heights := rs.map Img.height
    height := (rs.map Img.height).foldl (· + ·) 0
    pastes := pastes rs 0 }

/-- Per-group outcome of the CLI engine.  Unlike the GUI engine there is no
minimum-size check: the group is skipped only when it is empty
(`if not group_images`) or when no member survived loading
(`if not temp_images`). -/
def group_artifact (total_groups group_num : Nat) (g : List Member) : Option Artifact :=
  if g = [] then none
  else
    match min_width (survivors g) with
    | MinW.inf => none
    | MinW.fin t => some (stitched total_groups group_num t (survivors g))

end ImageStitcher

namespace ImageStitcherThread

/-- `total_steps`: every group of at least 2 members contributes
`len(group_images) + 3` steps (the source comment budgets them as
load + scale + create + save). -/
def total_steps (groups : List (List Member)) : Nat :=
  groups.foldl (fun acc g => if 2 ≤ g.length then acc + (g.length + 3) else acc) 0

/-- `int(current_step / total_steps * 100)`. -/
def progress (step tS : Nat) : Nat := step * 100 / tS

/-- The load loop of one group: returns `pil_images`, the updated
`current_step`, and the progress percentages emitted (one after each
successful load; a failed load emits nothing and does not advance the
step counter, because `continue` in the `except` arm skips both). -/
def load_phase (tS : Nat) : List Member → Nat → List Img × Nat × List Nat
  | [], step => ([], step, [])
  | none :: rest, step => load_phase tS rest step
  | some i :: rest, step =>
    let step1 := step + 1
    let r := load_phase tS rest step1
    (i :: r.1, r.2.1, progress step1 tS :: r.2.2)

/-- The resize loop's step accounting: one step and one progress emission
per element of `pil_images`. -/
def resize_phase (tS : Nat) : Nat → Nat → Nat × List Nat
  | 0, step => (step, [])
  | n + 1, step =>
    let step1 := step + 1
    let r := resize_phase tS n step1
    (r.1, progress step1 tS :: r.2)

/-- Accumulated observable behaviour of the per-group loop: progress
percentages in emission order, indices of groups logged as skipped for
insufficient members, artifacts in write order, and `some msg` when a save
raised (aborting the loop), else `none`. -/
structure LoopOut where
  evs : List Nat
  skips : List Nat
  arts : List Artifact
  err : Option String
deriving Repr, DecidableEq

/-- The `for group_num, group_images in enumerate(self.image_groups)` loop.
`wk i` tells whether the save of group `i` succeeds; a failing save raises,
which the surrounding `try` turns into the terminal failure. -/
def main_loop (tS total_groups : Nat) (wk : Nat → Bool) :
    List (List Member) → Nat → Nat → LoopOut
  | [], _, _ => ⟨[], [], [], none⟩
  | g :: rest, idx, step =>
    if g.length < 2 then
      let r := main_loop tS total_groups wk rest (idx + 1) step
      ⟨r.evs, idx :: r.skips, r.arts, r.err⟩
    else
      let lp := load_phase tS g step
      match min_width lp.1 with
      | MinW.inf =>
        let r := main_loop tS total_groups wk rest (idx + 1) lp.2.1
        ⟨lp.2.2 ++ r.evs, r.skips, r.arts, r.err⟩
      | MinW.fin t =>
        let rp := resize_phase tS lp.1.length lp.2.1
        let step3 := rp.1 + 1
        if wk idx then
          let step4 := step3 + 1
          let a := stitched total_groups idx t lp.1
          let r := main_loop tS total_groups wk rest (idx + 1) step4
          ⟨lp.2.2 ++ rp.2 ++ [progress step3 tS, progress step4 tS] ++ r.evs,
           r.skips, a :: r.arts, r.err⟩
        else
          ⟨lp.2.2 ++ rp.2 ++ [progress step3 tS], [], [], some "save failed"⟩

/-- Terminal observable behaviour of `ImageStitcherThread.run`. -/
structure RunOut where
  progressEvents : List Nat
  skipLogs : List Nat
  artifacts : List Artifact
  ok : Bool
  msg : String
deriving Repr, DecidableEq

/-- `ImageStitcherThread.run`: create the output directory (`mk` tells
whether that raised; a raise is caught by the outer handler and reported as
failure), fail when the group list is empty, otherwise run the main loop;
an uncaught save error also reports failure.  Messages stand in for the
source's Chinese strings. -/
def run (groups : List (List Member)) (mk : Bool) (wk : Nat → Bool) : RunOut :=
  if mk = false then ⟨[], [], [], false, "mkdir raised"⟩
  else if groups.length = 0 then ⟨[], [], [], false, "no groups"⟩
  else
    let r := main_loop (total_steps groups) groups.length wk groups 0 0
    match r.err with
    | some m => ⟨r.evs, r.skips, r.arts, false, m⟩
    | none => ⟨r.evs, r.skips, r.arts, true, "finished"⟩

end ImageStitcherThread

/-!
Pixel-level model of the color normalization performed by both engines:

```
if img.mode in ('RGBA', 'LA'):
    background = Image.new('RGB', img.size, (255, 255, 255))
    background.paste(img, mask=img.split()[-1] if img.mode == 'RGBA' else None)
    img = background
elif img.mode != 'RGB':
    img = img.convert('RGB')
```

A source pixel carries the channels of its mode: `rgb`, `rgba`, `la`
(luminance + alpha), or `other` for any remaining mode, represented by the
RGB channels `convert('RGB')` yields for it.  Channel values are `Nat`
(0–255 in practice).
-/

/-- One source pixel together with its image mode. -/
inductive SrcPix where
  | rgb : Nat → Nat → Nat → SrcPix
  | rgba : Nat → Nat → Nat → Nat → SrcPix
  | la : Nat → Nat → SrcPix
  | other : Nat → Nat → Nat → SrcPix
deriving Repr, DecidableEq

/-- A pixel of the canonical 3-channel result. -/
structure RGBPix where
  r : Nat
  g : Nat
  b : Nat
deriving Repr, DecidableEq

/-- PIL's per-channel blend used by `paste` with an 8-bit mask `m`:
`out = (bg * (255 - m) + im * m) / 255`, with the fixed-point
round-to-nearest PIL applies. -/
def blendChan (bg im m : Nat) : Nat := (bg * (255 - m) + im * m + 127) / 255

/-- What the source pixel becomes under conversion to RGB: `paste` without
a mask converts the pasted image to the target's mode, and
`Image.convert` maps LA to its luminance replicated across the three
channels with the alpha discarded. -/
def toRGB : SrcPix → RGBPix
  | SrcPix.rgb r g b => ⟨r, g, b⟩
  | SrcPix.rgba r g b _ => ⟨r, g, b⟩
  | SrcPix.la l _ => ⟨l, l, l⟩
  | SrcPix.other r g b => ⟨r, g, b⟩

/-- `background.paste(img, mask=m)` over an opaque white background, per
pixel: with a mask, blend white and the converted pixel through the mask;
without a mask, overwrite with the converted pixel. -/
def pasteOnWhite (p : SrcPix) : Option Nat → RGBPix
  | none => toRGB p
  | some m =>
    ⟨blendChan 255 (toRGB p).r m, blendChan 255 (toRGB p).g m, blendChan 255 (toRGB p).b m⟩

namespace ImageStitcherThread

/-- Normalization of one pixel in `ImageStitcherThread.run`: the mask is
`img.split()[-1]` (the alpha band) only when the mode is RGBA — for LA the
conditional expression yields `None`. -/
def normalizePix : SrcPix → RGBPix
  | SrcPix.rgba r g b a => pasteOnWhite (SrcPix.rgba r g b a) (some a)
  | SrcPix.la l a => pasteOnWhite (SrcPix.la l a) none
  | SrcPix.rgb r g b => ⟨r, g, b⟩
  | SrcPix.other r g b => toRGB (SrcPix.other r g b)

end ImageStitcherThread

namespace ImageStitcher

/-- Normalization of one pixel in `ImageStitcher.stitch_images` (the same
code as the GUI engine). -/
def normalizePix : SrcPix → RGBPix
  | SrcPix.rgba r g b a => pasteOnWhite (SrcPix.rgba r g b a) (some a)
  | SrcPix.la l a => pasteOnWhite (SrcPix.la l a) none
  | SrcPix.rgb r g b => ⟨r, g, b⟩
  | SrcPix.other r g b => toRGB (SrcPix.other r g b)

end ImageStitcher

/-- Modelled from the spec: "If the source has an alpha or luminance-alpha
channel, composite it over an opaque white background of the same
dimensions using the image's own alpha as the blend mask"; other modes
convert to the canonical 3-channel form. -/
def specNormalizePix : SrcPix → RGBPix
  | SrcPix.rgba r g b a => pasteOnWhite (SrcPix.rgba r g b a) (some a)
  | SrcPix.la l a => pasteOnWhite (SrcPix.la l a) (some a)
  | SrcPix.rgb r g b => ⟨r, g, b⟩
  | SrcPix.other r g b => toRGB (SrcPix.other r g b)

/-- A source image for the normalizer: geometry plus a representative
pixel (normalization acts pointwise, so one pixel suffices). -/
structure SrcImage where
  width : Nat
  height : Nat
  pix : SrcPix
deriving Repr, DecidableEq

/-- A normalized image: canonical 3-channel pixel plus unchanged
geometry. -/
structure NormImage where
  width : Nat
  height : Nat
  pix : RGBPix
deriving Repr, DecidableEq

namespace ImageStitcherThread

/-- Image-level normalization in the GUI engine: the white background is
allocated with `img.size`, and `paste`/`convert` leave geometry
unchanged. -/
def normalize (img : SrcImage) : NormImage :=
  ⟨img.width, img.height, normalizePix img.pix⟩

end ImageStitcherThread

/-- Modelled from the spec: the nearest-integer rescaled height
`round(image.height * targetWidth / image.width)` the claim asserts
(exact rational rounding, halves up). -/
def specNewHeight (t : Nat) (i : Img) : Nat :=
  (2 * (i.height * t) + i.width) / (2 * i.width)

/-- Index the elements of a list starting at `i` (the loop counter of
`enumerate`). -/
def withIdx {α : Type _} : Nat → List α → List (Nat × α)
  | _, [] => []
  | i, a :: as => (i, a) :: withIdx (i + 1) as

/-- A group the GUI engine turns into an artifact: at least two supplied
members and at least one survivor. -/
def validGroup (g : List Member) : Bool :=
  if g.length < 2 then false else !(ImageStitcherThread.survivors g).isEmpty

/-- `contiguousB y ps total` checks that the pastes `ps` start exactly at
`y`, that each paste starts exactly where the previous one ends, and that
the last paste ends exactly at `total`: no gaps, no overlap, full
coverage. -/
def contiguousB : Nat → List (Nat × Img) → Nat → Bool
  | y, [], total => y == total
  | y, (off, i) :: rest, total => (off == y) && contiguousB (y + i.height) rest total

theorem minw_foldl_fin (imgs : List Img) :
    ∀ m : Nat, imgs.foldl (fun acc i => minwStep acc i.width) (MinW.fin m)
      = MinW.fin (imgs.foldl (fun acc i => Nat.min acc i.width) m) := by
  induction imgs with
  | nil => intro m; rfl
  | cons i rest ih => intro m; simpa [minwStep] using ih (Nat.min m i.width)

theorem foldl_min_mem (imgs : List Img) :
    ∀ m : Nat, imgs.foldl (fun acc i => Nat.min acc i.width) m = m
      ∨ ∃ i ∈ imgs, imgs.foldl (fun acc i => Nat.min acc i.width) m = i.width := by
  induction imgs with
  | nil => intro m; exact Or.inl rfl
  | cons i rest ih =>
    intro m
    rcases ih (Nat.min m i.width) with h | ⟨j, hj, hje⟩
    · rcases Nat.le_total m i.width with hle | hle
      · exact Or.inl (by simpa [List.foldl_cons, Nat.min_eq_left hle] using h)
      · exact Or.inr ⟨i, List.mem_cons_self .., by
          simpa [List.foldl_cons, Nat.min_eq_right hle] using h⟩
    · exact Or.inr ⟨j, List.mem_cons_of_mem i hj, by simpa [List.foldl_cons] using hje⟩

theorem foldl_min_le (imgs : List Img) :
    ∀ m : Nat, imgs.foldl (fun acc i => Nat.min acc i.width) m ≤ m
      ∧ ∀ i ∈ imgs, imgs.foldl (fun acc i => Nat.min acc i.width) m ≤ i.width := by
  induction imgs with
  | nil => intro m; exact ⟨Nat.le_refl m, by intro i hi; cases hi⟩
  | cons i rest ih =>
    intro m
    obtain ⟨h1, h2⟩ := ih (Nat.min m i.width)
    refine ⟨Nat.le_trans (by simpa using h1) (Nat.min_le_left _ _), ?_⟩
    intro j hj
    rcases List.mem_cons.mp hj with rfl | hj
    · exact Nat.le_trans (by simpa using h1) (Nat.min_le_right _ _)
    · simpa using h2 j hj

theorem min_width_spec (imgs : List Img) (h : imgs ≠ []) :
    ∃ w, ImageStitcherThread.min_width imgs = MinW.fin w
      ∧ w ∈ imgs.map Img.width ∧ ∀ v ∈ imgs.map Img.width, w ≤ v := by
  cases imgs with
  | nil => exact absurd rfl h
  | cons i rest =>
    refine ⟨rest.foldl (fun acc i => Nat.min acc i.width) i.width, ?_, ?_, ?_⟩
    · simpa [ImageStitcherThread.min_width, minwStep] using minw_foldl_fin rest i.width
    · rcases foldl_min_mem rest i.width with h | ⟨j, hj, hje⟩
      · rw [h]; exact List.mem_map_of_mem Img.width (List.mem_cons_self ..)
      · rw [hje]; exact List.mem_map_of_mem Img.width (List.mem_cons_of_mem i hj)
    · intro v hv
      obtain ⟨h1, h2⟩ := foldl_min_le rest i.width
      rcases List.mem_map.mp hv with ⟨j, hj, rfl⟩
      rcases List.mem_cons.mp hj with rfl | hj
      · exact h1
      · exact h2 j hj

theorem min_width_inf_iff (imgs : List Img) :
    ImageStitcherThread.min_width imgs = MinW.inf ↔ imgs = [] := by
  constructor
  · intro h
    cases imgs with
    | nil => rfl
    | cons i rest =>
      exfalso
      have h2 : ImageStitcherThread.min_width (i :: rest)
          = MinW.fin (rest.foldl (fun acc i => Nat.min acc i.width) i.width) := by
        simpa [ImageStitcherThread.min_width, minwStep] using minw_foldl_fin rest i.width
      rw [h2] at h
      simp at h
  · intro h; subst h; rfl

theorem foldl_add_eq_sum (l : List Nat) : ∀ a : Nat, l.foldl (· + ·) a = a + l.sum := by
  induction l with
  | nil => intro a; simp
  | cons x rest ih => intro a; simp [List.foldl_cons, ih, Nat.add_assoc]

theorem gui_pastes_snd (l : List Img) :
    ∀ y, (ImageStitcherThread.pastes l y).map Prod.snd = l := by
  induction l with
  | nil => intro y; rfl
  | cons i rest ih => intro y; simp [ImageStitcherThread.pastes, ih]

theorem gui_pastes_contiguous (l : List Img) :
    ∀ y, contiguousB y (ImageStitcherThread.pastes l y) (y + (l.map Img.height).sum) = true := by
  induction l with
  | nil => intro y; simp [ImageStitcherThread.pastes, contiguousB]
  | cons i rest ih =>
    intro y
    simp only [ImageStitcherThread.pastes, contiguousB, List.map_cons, List.sum_cons,
      beq_self_eq_true, Bool.true_and]
    rw [← Nat.add_assoc]
    exact ih (y + i.height)

theorem gui_survivors_map_some (l : List Img) :
    ImageStitcherThread.survivors (l.map some) = l := by
  induction l with
  | nil => rfl
  | cons i rest ih => simp [ImageStitcherThread.survivors, List.filterMap_cons] at ih ⊢

theorem gui_survivors_length_le (g : List Member) :
    (ImageStitcherThread.survivors g).length ≤ g.length :=
  List.length_filterMap_le id g

theorem load_phase_surv (tS : Nat) (g : List Member) :
    ∀ step, (ImageStitcherThread.load_phase tS g step).1
      = ImageStitcherThread.survivors g := by
  induction g with
  | nil => intro step; rfl
  | cons m rest ih =>
    intro step
    cases m with
    | none =>
      simpa [ImageStitcherThread.load_phase, ImageStitcherThread.survivors,
        List.filterMap_cons] using ih step
    | some i =>
      simp only [ImageStitcherThread.load_phase, ImageStitcherThread.survivors,
        List.filterMap_cons, id]
      rw [ih (step + 1)]
      rfl

theorem ts_foldl_mono (l : List (List Member)) :
    ∀ a : Nat,
      a ≤ l.foldl (fun acc g => if 2 ≤ g.length then acc + (g.length + 3) else acc) a := by
  induction l with
  | nil => intro a; exact Nat.le_refl a
  | cons g rest ih =>
    intro a
    refine Nat.le_trans ?_ (ih (if 2 ≤ g.length then a + (g.length + 3) else a))
    split
    · exact Nat.le_add_right a _
    · exact Nat.le_refl a

theorem ts_mem_le (l : List (List Member)) :
    ∀ (a : Nat) (g : List Member), g ∈ l → 2 ≤ g.length →
      a + (g.length + 3)
        ≤ l.foldl (fun acc g => if 2 ≤ g.length then acc + (g.length + 3) else acc) a := by
  induction l with
  | nil => intro a g hg; cases hg
  | cons h t ih =>
    intro a g hg h2
    rcases List.mem_cons.mp hg with rfl | hg
    · simpa [List.foldl_cons, if_pos h2] using ts_foldl_mono t (a + (g.length + 3))
    · have hstep : a ≤ if 2 ≤ h.length then a + (h.length + 3) else a := by
        split
        · exact Nat.le_add_right a _
        · exact Nat.le_refl a
      calc a + (g.length + 3)
          ≤ (if 2 ≤ h.length then a + (h.length + 3) else a) + (g.length + 3) :=
            Nat.add_le_add_right hstep _
        _ ≤ _ := ih _ g hg h2

theorem total_steps_ge (groups : List (List Member)) (g : List Member)
    (hg : g ∈ groups) (h2 : 2 ≤ g.length) :
    g.length + 3 ≤ ImageStitcherThread.total_steps groups := by
  simpa [ImageStitcherThread.total_steps] using ts_mem_le groups 0 g hg h2

theorem cli_survivors_eq : ImageStitcher.survivors = ImageStitcherThread.survivors := rfl

theorem cli_min_width_eq : ImageStitcher.min_width = ImageStitcherThread.min_width := rfl

theorem cli_resize_eq : ImageStitcher.resize = ImageStitcherThread.resize := rfl

theorem cli_output_name_eq : ImageStitcher.output_name = ImageStitcherThread.output_name := rfl

theorem cli_pastes_eq (l : List Img) :
    ∀ y, ImageStitcher.pastes l y = ImageStitcherThread.pastes l y := by
  induction l with
  | nil => intro y; rfl
  | cons i rest ih =>
    intro y
    simp [ImageStitcher.pastes, ImageStitcherThread.pastes, ih]

theorem cli_stitched_eq (tg idx t : Nat) (surv : List Img) :
    ImageStitcher.stitched tg idx t surv = ImageStitcherThread.stitched tg idx t surv := by
  simp only [ImageStitcher.stitched, ImageStitcherThread.stitched, cli_resize_eq,
    cli_output_name_eq, cli_pastes_eq]

theorem cli_group_artifact_eq (tg idx : Nat) (g : List Member) (h2 : 2 ≤ g.length) :
    ImageStitcher.group_artifact tg idx g = ImageStitcherThread.group_artifact tg idx g := by
  have hne : g ≠ [] := by
    intro h
    rw [h] at h2
    exact absurd h2 (by simp)
  have hlt : ¬ g.length < 2 := Nat.not_lt.mpr h2
  simp only [ImageStitcher.group_artifact, ImageStitcherThread.group_artifact, if_neg hne,
    if_neg hlt, cli_survivors_eq, cli_min_width_eq]
  cases ImageStitcherThread.min_width (ImageStitcherThread.survivors g) with
  | inf => rfl
  | fin t => simp [cli_stitched_eq]

theorem group_artifact_isSome (tg idx : Nat) (g : List Member) :
    (ImageStitcherThread.group_artifact tg idx g).isSome = validGroup g := by
  by_cases hlen : g.length < 2
  · simp [ImageStitcherThread.group_artifact, validGroup, hlen]
  · cases hmw : ImageStitcherThread.min_width (ImageStitcherThread.survivors g) with
    | inf =>
      have hnil : ImageStitcherThread.survivors g = [] := (min_width_inf_iff _).mp hmw
      simp [ImageStitcherThread.group_artifact, validGroup, hlen, hmw, hnil]
      rfl
    | fin t =>
      have hne : ImageStitcherThread.survivors g ≠ [] := by
        intro h
        rw [h] at hmw
        cases hmw
      have hie : (ImageStitcherThread.survivors g).isEmpty = false := by
        cases hs : ImageStitcherThread.survivors g with
        | nil => exact absurd hs hne
        | cons i rest => rfl
      simp [ImageStitcherThread.group_artifact, validGroup, hlen, hmw, hie]

theorem main_loop_spec (tS tg : Nat) (wk : Nat → Bool) (hw : ∀ i, wk i = true) :
    ∀ (gs : List (List Member)) (idx step : Nat),
      (ImageStitcherThread.main_loop tS tg wk gs idx step).err = none
      ∧ (ImageStitcherThread.main_loop tS tg wk gs idx step).arts
          = (withIdx idx gs).filterMap
              (fun p => ImageStitcherThread.group_artifact tg p.1 p.2)
      ∧ (ImageStitcherThread.main_loop tS tg wk gs idx step).skips
          = ((withIdx idx gs).filter (fun p => p.2.length < 2)).map Prod.fst := by
  intro gs
  induction gs with
  | nil => intro idx step; exact ⟨rfl, rfl, rfl⟩
  | cons g rest ih =>
    intro idx step
    by_cases hlen : g.length < 2
    · obtain ⟨e, a, s⟩ := ih (idx + 1) step
      refine ⟨?_, ?_, ?_⟩ <;>
        simp [ImageStitcherThread.main_loop, if_pos hlen, withIdx, List.filterMap_cons,
          List.filter_cons, ImageStitcherThread.group_artifact, hlen, e, a, s]
    · simp only [ImageStitcherThread.main_loop, if_neg hlen]
      rw [load_phase_surv tS g step]
      cases hmw : ImageStitcherThread.min_width (ImageStitcherThread.survivors g) with
      | inf =>
        obtain ⟨e, a, s⟩ := ih (idx + 1) (ImageStitcherThread.load_phase tS g step).2.1
        refine ⟨?_, ?_, ?_⟩ <;>
          simp [withIdx, List.filterMap_cons, List.filter_cons,
            ImageStitcherThread.group_artifact, hlen, hmw, e, a, s]
      | fin t =>
        have hwk := hw idx
        obtain ⟨e, a, s⟩ := ih (idx + 1)
          ((ImageStitcherThread.resize_phase tS
            (ImageStitcherThread.survivors g).length
            (ImageStitcherThread.load_phase tS g step).2.1).1 + 1 + 1)
        refine ⟨?_, ?_, ?_⟩ <;>
          simp [withIdx, List.filterMap_cons, List.filter_cons,
            ImageStitcherThread.group_artifact, hlen, hmw, hwk, e, a, s]

theorem main_loop_err_iff (tS tg : Nat) (wk : Nat → Bool) :
    ∀ (gs : List (List Member)) (idx step : Nat),
      (ImageStitcherThread.main_loop tS tg wk gs idx step).err = none
      ↔ ∀ p ∈ withIdx idx gs, validGroup p.2 = true → wk p.1 = true := by
  intro gs
  induction gs with
  | nil => intro idx step; simp [ImageStitcherThread.main_loop, withIdx]
  | cons g rest ih =>
    intro idx step
    by_cases hlen : g.length < 2
    · have hvg : validGroup g = false := by simp [validGroup, hlen]
      simp only [ImageStitcherThread.main_loop, if_pos hlen, withIdx, List.forall_mem_cons]
      rw [ih (idx + 1) step]
      simp [hvg]
    · simp only [ImageStitcherThread.main_loop, if_neg hlen]
      rw [load_phase_surv tS g step]
      cases hmw : ImageStitcherThread.min_width (ImageStitcherThread.survivors g) with
      | inf =>
        have hnil : ImageStitcherThread.survivors g = [] := (min_width_inf_iff _).mp hmw
        have hvg : validGroup g = false := by simp [validGroup, hlen, hnil]
        simp only [withIdx, List.forall_mem_cons]
        rw [ih (idx + 1) (ImageStitcherThread.load_phase tS g step).2.1]
        simp [hvg]
      | fin t =>
        have hne : ImageStitcherThread.survivors g ≠ [] := by
          intro h
          rw [h] at hmw
          cases hmw
        have hie : (ImageStitcherThread.survivors g).isEmpty = false := by
          cases hs : ImageStitcherThread.survivors g with
          | nil => exact absurd hs hne
          | cons i r => rfl
        have hvg : validGroup g = true := by simp [validGroup, hlen, hie]
        by_cases hwk : wk idx = true
        · have hih := ih (idx + 1)
            ((ImageStitcherThread.resize_phase tS
              (ImageStitcherThread.survivors g).length
              (ImageStitcherThread.load_phase tS g step).2.1).1 + 1 + 1)
          simpa [if_pos hwk, withIdx, hvg, hwk] using hih
        · have hwkf : wk idx = false := by
            cases h : wk idx
            · rfl
            · exact absurd h hwk
          simp [hwkf, hvg, withIdx]

theorem main_loop_err_msg (tS tg : Nat) (wk : Nat → Bool) :
    ∀ (gs : List (List Member)) (idx step : Nat) (m : String),
      (ImageStitcherThread.main_loop tS tg wk gs idx step).err = some m →
      m = "save failed" := by
  intro gs
  induction gs with
  | nil => intro idx step m h; cases h
  | cons g rest ih =>
    intro idx step m
    by_cases hlen : g.length < 2
    · simp only [ImageStitcherThread.main_loop, if_pos hlen]
      exact ih (idx + 1) step m
    · simp only [ImageStitcherThread.main_loop, if_neg hlen]
      cases hmw : ImageStitcherThread.min_width
          (ImageStitcherThread.load_phase tS g step).1 with
      | inf => exact ih (idx + 1) (ImageStitcherThread.load_phase tS g step).2.1 m
      | fin t =>
        by_cases hwk : wk idx
        · simp only [if_pos hwk]
          exact ih (idx + 1) _ m
        · simp only [if_neg hwk]
          intro h
          cases h
          rfl

theorem main_loop_evs_group (tS tg : Nat) (wk : Nat → Bool) :
    ∀ (gs : List (List Member)) (idx step : Nat),
      (ImageStitcherThread.main_loop tS tg wk gs idx step).evs ≠ [] →
      ∃ g ∈ gs, 2 ≤ g.length := by
  intro gs
  induction gs with
  | nil => intro idx step h; exact absurd rfl h
  | cons g rest ih =>
    intro idx step
    by_cases hlen : g.length < 2
    · simp only [ImageStitcherThread.main_loop, if_pos hlen]
      intro h
      obtain ⟨g', hg', h2⟩ := ih (idx + 1) step h
      exact ⟨g', List.mem_cons_of_mem g hg', h2⟩
    · intro _
      exact ⟨g, List.mem_cons_self .., Nat.not_lt.mp hlen⟩

theorem arts_count (tg : Nat) :
    ∀ (l : List (List Member)) (i : Nat),
      ((withIdx i l).filterMap
        (fun p => ImageStitcherThread.group_artifact tg p.1 p.2)).length
      = l.countP validGroup := by
  intro l
  induction l with
  | nil => intro i; rfl
  | cons g rest ih =>
    intro i
    simp only [withIdx, List.filterMap_cons, List.countP_cons]
    cases hga : ImageStitcherThread.group_artifact tg i g with
    | none =>
      have hvg : validGroup g = false := by
        rw [← group_artifact_isSome tg i g, hga]
        rfl
      simp [hvg, ih (i + 1)]
    | some a =>
      have hvg : validGroup g = true := by
        rw [← group_artifact_isSome tg i g, hga]
        rfl
      simp [hvg, ih (i + 1)]

theorem skips_count :
    ∀ (l : List (List Member)) (i : Nat),
      (((withIdx i l).filter (fun p => p.2.length < 2)).map Prod.fst).length
      = l.countP (fun g => g.length < 2) := by
  intro l
  induction l with
  | nil => intro i; rfl
  | cons g rest ih =>
    intro i
    by_cases hlen : g.length < 2
    · simp [withIdx, List.filter_cons, List.countP_cons, hlen, ih (i + 1)]
    · simp [withIdx, List.filter_cons, List.countP_cons, hlen, ih (i + 1)]

theorem group_artifact_name (tg idx : Nat) (g : List Member) (a : Artifact)
    (hga : ImageStitcherThread.group_artifact tg idx g = some a) :
    a.name = if tg = 1 then "stitched_long_image.jpg"
      else "stitched_long_image_part" ++ toString (idx + 1) ++ ".jpg" := by
  by_cases hlen : g.length < 2
  · simp [ImageStitcherThread.group_artifact, hlen] at hga
  · cases hmw : ImageStitcherThread.min_width (ImageStitcherThread.survivors g) with
    | inf => simp [ImageStitcherThread.group_artifact, hlen, hmw] at hga
    | fin t =>
      simp only [ImageStitcherThread.group_artifact, if_neg hlen, hmw,
        Option.some.injEq] at hga
      rw [← hga]
      rfl

theorem run_all_ok (groups : List (List Member)) (wk : Nat → Bool)
    (hw : ∀ i, wk i = true) (hne : groups ≠ []) :
    (ImageStitcherThread.run groups true wk).ok = true
    ∧ (ImageStitcherThread.run groups true wk).artifacts
        = (withIdx 0 groups).filterMap
            (fun p => ImageStitcherThread.group_artifact groups.length p.1 p.2)
    ∧ (ImageStitcherThread.run groups true wk).skipLogs
        = ((withIdx 0 groups).filter (fun p => p.2.length < 2)).map Prod.fst := by
  have hlen : ¬ groups.length = 0 := by
    intro h
    exact hne (List.length_eq_zero.mp h)
  obtain ⟨e, a, s⟩ := main_loop_spec (ImageStitcherThread.total_steps groups)
    groups.length wk hw groups 0 0
  unfold ImageStitcherThread.run
  rw [if_neg (by simp : ¬ (true = false)), if_neg hlen]
  simp only [e]
  exact ⟨trivial, a, s⟩

/-- C1: for every group whose surviving members number at least 2, both
engines produce an artifact whose raster width is exactly the minimum
width among the survivors, whose height is exactly the sum of the
survivors' rescaled heights, and whose pastes place the resized survivors
in original member order at increasing vertical offsets starting at 0 with
no gaps, no overlap, and full coverage of the raster height. -/
theorem c1_group_geometry (tg idx : Nat) (g : List Member)
    (h2 : 2 ≤ (ImageStitcherThread.survivors g).length) :
    ∃ a t, ImageStitcherThread.group_artifact tg idx g = some a
      ∧ ImageStitcher.group_artifact tg idx g = some a
      ∧ a.width = t
      ∧ t ∈ (ImageStitcherThread.survivors g).map Img.width
      ∧ (∀ v ∈ (ImageStitcherThread.survivors g).map Img.width, t ≤ v)
      ∧ a.heights = (ImageStitcherThread.survivors g).map (ImageStitcherThread.new_height t)
      ∧ a.height
          = ((ImageStitcherThread.survivors g).map (ImageStitcherThread.new_height t)).sum
      ∧ a.pastes.map Prod.snd
          = (ImageStitcherThread.survivors g).map (ImageStitcherThread.resize t)
      ∧ contiguousB 0 a.pastes a.height = true := by
  have hne : ImageStitcherThread.survivors g ≠ [] := by
    intro h
    rw [h] at h2
    exact absurd h2 (by decide)
  obtain ⟨w, hmw, hmem, hle⟩ := min_width_spec _ hne
  have hglen : ¬ g.length < 2 :=
    Nat.not_lt.mpr (Nat.le_trans h2 (gui_survivors_length_le g))
  have hmap : ((ImageStitcherThread.survivors g).map
      (ImageStitcherThread.resize w)).map Img.height
      = (ImageStitcherThread.survivors g).map (ImageStitcherThread.new_height w) := by
    rw [List.map_map]
    rfl
  refine ⟨ImageStitcherThread.stitched tg idx w (ImageStitcherThread.survivors g), w,
    ?_, ?_, rfl, hmem, hle, ?_, ?_, ?_, ?_⟩
  · simp [ImageStitcherThread.group_artifact, hglen, hmw]
  · rw [cli_group_artifact_eq tg idx g (Nat.not_lt.mp hglen)]
    simp [ImageStitcherThread.group_artifact, hglen, hmw]
  · simpa [ImageStitcherThread.stitched] using hmap
  · simp only [ImageStitcherThread.stitched]
    rw [foldl_add_eq_sum, hmap, Nat.zero_add]
  · simpa [ImageStitcherThread.stitched] using
      gui_pastes_snd ((ImageStitcherThread.survivors g).map (ImageStitcherThread.resize w)) 0
  · simp only [ImageStitcherThread.stitched]
    rw [foldl_add_eq_sum, Nat.zero_add]
    simpa using gui_pastes_contiguous
      ((ImageStitcherThread.survivors g).map (ImageStitcherThread.resize w)) 0

/-- C1 witness: the group with members of geometry 2×3 and 3×5 has 2
survivors and is stitched as claimed. -/
theorem c1_group_geometry_witness :
    2 ≤ (ImageStitcherThread.survivors [some (Img.mk 2 3), some (Img.mk 3 5)]).length
    ∧ ∃ a t,
        ImageStitcherThread.group_artifact 1 0 [some (Img.mk 2 3), some (Img.mk 3 5)] = some a
        ∧ ImageStitcher.group_artifact 1 0 [some (Img.mk 2 3), some (Img.mk 3 5)] = some a
        ∧ a.width = t
        ∧ t ∈ (ImageStitcherThread.survivors
            [some (Img.mk 2 3), some (Img.mk 3 5)]).map Img.width
        ∧ (∀ v ∈ (ImageStitcherThread.survivors
            [some (Img.mk 2 3), some (Img.mk 3 5)]).map Img.width, t ≤ v)
        ∧ a.heights = (ImageStitcherThread.survivors
            [some (Img.mk 2 3), some (Img.mk 3 5)]).map (ImageStitcherThread.new_height t)
        ∧ a.height = ((ImageStitcherThread.survivors
            [some (Img.mk 2 3), some (Img.mk 3 5)]).map
              (ImageStitcherThread.new_height t)).sum
        ∧ a.pastes.map Prod.snd = (ImageStitcherThread.survivors
            [some (Img.mk 2 3), some (Img.mk 3 5)]).map (ImageStitcherThread.resize t)
        ∧ contiguousB 0 a.pastes a.height = true :=
  ⟨by decide, c1_group_geometry 1 0 [some (Img.mk 2 3), some (Img.mk 3 5)] (by decide)⟩

/-- C3 counterexample: for a 3×7 image rescaled to target width 2, the
engine computes height 4 (truncation of 14/3), while the nearest-integer
rounding the claim asserts gives 5. -/
theorem c3_round_counterexample :
    ImageStitcherThread.new_height 2 (Img.mk 3 7) = 4
    ∧ specNewHeight 2 (Img.mk 3 7) = 5
    ∧ ImageStitcherThread.new_height 2 (Img.mk 3 7) ≠ specNewHeight 2 (Img.mk 3 7) := by
  decide

/-- C3 amended: the rescaled height is the floor (truncation toward zero)
of `image.height * targetWidth / image.width`, not its nearest-integer
rounding; the image is resampled to `(targetWidth, that height)`, and both
engines compute the same height. -/
theorem c3_floor_amended (t : Nat) (i : Img) (hw : 0 < i.width) :
    ImageStitcherThread.new_height t i * i.width ≤ i.height * t
    ∧ i.height * t < (ImageStitcherThread.new_height t i + 1) * i.width
    ∧ ImageStitcher.new_height t i = ImageStitcherThread.new_height t i
    ∧ ImageStitcherThread.resize t i = Img.mk t (ImageStitcherThread.new_height t i) := by
  refine ⟨Nat.div_mul_le_self _ _, ?_, rfl, rfl⟩
  calc i.height * t
      = i.width * (i.height * t / i.width) + i.height * t % i.width :=
        (Nat.div_add_mod _ _).symm
    _ < i.width * (i.height * t / i.width) + i.width :=
        Nat.add_lt_add_left (Nat.mod_lt _ hw) _
    _ = (i.height * t / i.width + 1) * i.width := by ring

/-- C3 amended witness: instantiation at the 3×7 image and target width 2. -/
theorem c3_floor_amended_witness :
    0 < (Img.mk 3 7).width
    ∧ (ImageStitcherThread.new_height 2 (Img.mk 3 7) * (Img.mk 3 7).width
        ≤ (Img.mk 3 7).height * 2
      ∧ (Img.mk 3 7).height * 2
          < (ImageStitcherThread.new_height 2 (Img.mk 3 7) + 1) * (Img.mk 3 7).width
      ∧ ImageStitcher.new_height 2 (Img.mk 3 7) = ImageStitcherThread.new_height 2 (Img.mk 3 7)
      ∧ ImageStitcherThread.resize 2 (Img.mk 3 7)
          = Img.mk 2 (ImageStitcherThread.new_height 2 (Img.mk 3 7))) :=
  ⟨by decide, c3_floor_amended 2 (Img.mk 3 7) (by decide)⟩

/-- C10: whenever at least one member of a group survives loading, the
`min_width` fold yields a finite value that is the width of some surviving
member (the infinity sentinel is unreachable on every path that uses the
value), and in both engines the artifact's raster width is exactly that
value. -/
theorem c10_min_width_defined (tg idx : Nat) (g : List Member)
    (h : ImageStitcherThread.survivors g ≠ []) :
    (∃ w, ImageStitcherThread.min_width (ImageStitcherThread.survivors g) = MinW.fin w
      ∧ w ∈ (ImageStitcherThread.survivors g).map Img.width
      ∧ ∀ v ∈ (ImageStitcherThread.survivors g).map Img.width, w ≤ v)
    ∧ (∀ a, ImageStitcherThread.group_artifact tg idx g = some a →
        ImageStitcherThread.min_width (ImageStitcherThread.survivors g) = MinW.fin a.width)
    ∧ (∀ a, ImageStitcher.group_artifact tg idx g = some a →
        ImageStitcher.min_width (ImageStitcher.survivors g) = MinW.fin a.width) := by
  have hgui : ∀ a, ImageStitcherThread.group_artifact tg idx g = some a →
      ImageStitcherThread.min_width (ImageStitcherThread.survivors g) = MinW.fin a.width := by
    intro a hga
    by_cases hlen : g.length < 2
    · simp [ImageStitcherThread.group_artifact, hlen] at hga
    · cases hmw : ImageStitcherThread.min_width (ImageStitcherThread.survivors g) with
      | inf => simp [ImageStitcherThread.group_artifact, hlen, hmw] at hga
      | fin t =>
        simp only [ImageStitcherThread.group_artifact, if_neg hlen, hmw,
          Option.some.injEq] at hga
        rw [← hga]
        rfl
  refine ⟨min_width_spec _ h, hgui, ?_⟩
  intro a hga
  have hgne : g ≠ [] := by
    intro hg
    apply h
    rw [hg]
    rfl
  cases hmw : ImageStitcherThread.min_width (ImageStitcherThread.survivors g) with
  | inf => exact absurd ((min_width_inf_iff _).mp hmw) h
  | fin t =>
    simp only [ImageStitcher.group_artifact, if_neg hgne, cli_survivors_eq,
      cli_min_width_eq, hmw, Option.some.injEq] at hga
    rw [cli_min_width_eq, cli_survivors_eq, hmw, ← hga]
    simp [cli_stitched_eq, ImageStitcherThread.stitched]

/-- C10 witness: instantiation at a group of 3×4 and 2×5 members. -/
theorem c10_min_width_defined_witness :
    ImageStitcherThread.survivors [some (Img.mk 3 4), some (Img.mk 2 5)] ≠ []
    ∧ ((∃ w, ImageStitcherThread.min_width (ImageStitcherThread.survivors
          [some (Img.mk 3 4), some (Img.mk 2 5)]) = MinW.fin w
        ∧ w ∈ (ImageStitcherThread.survivors
            [some (Img.mk 3 4), some (Img.mk 2 5)]).map Img.width
        ∧ ∀ v ∈ (ImageStitcherThread.survivors
            [some (Img.mk 3 4), some (Img.mk 2 5)]).map Img.width, w ≤ v)
      ∧ (∀ a, ImageStitcherThread.group_artifact 1 0
            [some (Img.mk 3 4), some (Img.mk 2 5)] = some a →
          ImageStitcherThread.min_width (ImageStitcherThread.survivors
            [some (Img.mk 3 4), some (Img.mk 2 5)]) = MinW.fin a.width)
      ∧ (∀ a, ImageStitcher.group_artifact 1 0
            [some (Img.mk 3 4), some (Img.mk 2 5)] = some a →
          ImageStitcher.min_width (ImageStitcher.survivors
            [some (Img.mk 3 4), some (Img.mk 2 5)]) = MinW.fin a.width)) :=
  ⟨by decide, c10_min_width_defined 1 0 [some (Img.mk 3 4), some (Img.mk 2 5)] (by decide)⟩

/-- C8: on a group of at least 2 members that all decode successfully, the
CLI engine and the GUI engine agree exactly: the same artifact, hence the
same target width, the same per-member rescaled heights, the same raster
dimensions and the same output file name. -/
theorem c8_engine_agreement (tg idx : Nat) (imgs : List Img) (h2 : 2 ≤ imgs.length) :
    ImageStitcher.group_artifact tg idx (imgs.map some)
      = ImageStitcherThread.group_artifact tg idx (imgs.map some)
    ∧ ∃ a, ImageStitcherThread.group_artifact tg idx (imgs.map some) = some a
        ∧ a.width ∈ imgs.map Img.width
        ∧ a.heights = imgs.map (ImageStitcherThread.new_height a.width)
        ∧ a.name = ImageStitcherThread.output_name tg idx := by
  have hlen : 2 ≤ (imgs.map some).length := by simpa using h2
  have hsurv : ImageStitcherThread.survivors (imgs.map some) = imgs :=
    gui_survivors_map_some imgs
  have hne : imgs ≠ [] := by
    intro h
    rw [h] at h2
    exact absurd h2 (by decide)
  obtain ⟨w, hmw, hmem, hle⟩ := min_width_spec imgs hne
  refine ⟨cli_group_artifact_eq tg idx _ hlen, ?_⟩
  refine ⟨ImageStitcherThread.stitched tg idx w imgs, ?_, hmem, ?_, rfl⟩
  · simp [ImageStitcherThread.group_artifact, Nat.not_lt.mpr h2, hsurv, hmw]
  · simp only [ImageStitcherThread.stitched]
    rw [List.map_map]
    rfl

/-- C2 counterexample: a group supplied with 2 members of which one fails
to decode has only 1 surviving member, yet the engine still produces an
artifact for it (the claim asserts no artifact is produced when fewer than
2 members remain valid after normalization). -/
theorem c2_single_survivor_counterexample :
    ([none, some (Img.mk 2 2)] : List Member).length = 2
    ∧ (ImageStitcherThread.survivors [none, some (Img.mk 2 2)]).length = 1
    ∧ (ImageStitcherThread.run [[none, some (Img.mk 2 2)]] true
        (fun _ => true)).artifacts.length = 1 := by
  decide

/-- C2 amended: a group supplied with fewer than 2 members is skipped with
a log event; a group of at least 2 supplied members with zero survivors is
skipped (without a dedicated group-level log event); but a group of at
least 2 supplied members with at least 1 survivor produces an artifact,
even when exactly one member survives.  In all cases the engine continues
and the job succeeds: the artifact count is the number of groups with at
least 2 supplied members and at least 1 survivor, and the skip-log count
is the number of undersized groups. -/
theorem c2_skip_policy_amended (groups : List (List Member)) (wk : Nat → Bool)
    (hw : ∀ i, wk i = true) (hne : groups ≠ []) :
    (ImageStitcherThread.run groups true wk).ok = true
    ∧ (ImageStitcherThread.run groups true wk).artifacts.length = groups.countP validGroup
    ∧ (ImageStitcherThread.run groups true wk).skipLogs.length
        = groups.countP (fun g => g.length < 2) := by
  obtain ⟨hok, ha, hs⟩ := run_all_ok groups wk hw hne
  refine ⟨hok, ?_, ?_⟩
  · rw [ha]
    exact arts_count groups.length groups 0
  · rw [hs]
    exact skips_count groups 0

/-- C2 amended witness: a job with an undersized group, an all-failing
group and one fully valid group yields one artifact and one skip log and
still succeeds. -/
theorem c2_skip_policy_amended_witness :
    (∀ i : Nat, (fun _ : Nat => true) i = true)
    ∧ ([[some (Img.mk 2 2)], [none, none], [some (Img.mk 2 2), some (Img.mk 3 3)]]
        : List (List Member)) ≠ []
    ∧ ((ImageStitcherThread.run
          [[some (Img.mk 2 2)], [none, none], [some (Img.mk 2 2), some (Img.mk 3 3)]]
          true (fun _ => true)).ok = true
      ∧ (ImageStitcherThread.run
          [[some (Img.mk 2 2)], [none, none], [some (Img.mk 2 2), some (Img.mk 3 3)]]
          true (fun _ => true)).artifacts.length
          = ([[some (Img.mk 2 2)], [none, none], [some (Img.mk 2 2), some (Img.mk 3 3)]]
              : List (List Member)).countP validGroup
      ∧ (ImageStitcherThread.run
          [[some (Img.mk 2 2)], [none, none], [some (Img.mk 2 2), some (Img.mk 3 3)]]
          true (fun _ => true)).skipLogs.length
          = ([[some (Img.mk 2 2)], [none, none], [some (Img.mk 2 2), some (Img.mk 3 3)]]
              : List (List Member)).countP (fun g => g.length < 2)) :=
  ⟨fun _ => rfl, by decide,
    c2_skip_policy_amended _ _ (fun _ => rfl) (by decide)⟩

/-- C4 counterexample: a job supplying 2 groups of which only the second
is valid has exactly one valid group, yet its single artifact is named
with the sequence suffix `part2`, not the fixed base name the claim
asserts for a job with exactly one valid group. -/
theorem c4_naming_counterexample :
    ([[some (Img.mk 1 1)], [some (Img.mk 1 1), some (Img.mk 2 2)]]
        : List (List Member)).countP validGroup = 1
    ∧ (ImageStitcherThread.run [[some (Img.mk 1 1)], [some (Img.mk 1 1), some (Img.mk 2 2)]]
        true (fun _ => true)).artifacts.map Artifact.name
        = ["stitched_long_image_part2.jpg"]
    ∧ "stitched_long_image_part2.jpg" ≠ "stitched_long_image.jpg" := by
  decide

/-- C4 amended: the fixed base filename is used exactly when the job
supplied exactly one group (valid or not), not when exactly one group is
valid; otherwise every artifact carries the 1-based sequence suffix of its
group's position among all supplied groups (skipped groups consume no
artifact but do not shift the numbering), in both engines. -/
theorem c4_naming_amended (groups : List (List Member)) (wk : Nat → Bool)
    (hw : ∀ i, wk i = true) (hne : groups ≠ []) :
    (∀ a ∈ (ImageStitcherThread.run groups true wk).artifacts,
      ∃ p, p ∈ withIdx 0 groups
        ∧ ImageStitcherThread.group_artifact groups.length p.1 p.2 = some a
        ∧ a.name = (if groups.length = 1 then "stitched_long_image.jpg"
            else "stitched_long_image_part" ++ toString (p.1 + 1) ++ ".jpg"))
    ∧ (∀ (tg idx : Nat) (g : List Member) (a : Artifact),
        ImageStitcher.group_artifact tg idx g = some a →
        a.name = (if tg = 1 then "stitched_long_image.jpg"
            else "stitched_long_image_part" ++ toString (idx + 1) ++ ".jpg")) := by
  obtain ⟨hok, ha, hs⟩ := run_all_ok groups wk hw hne
  constructor
  · intro a hmem
    rw [ha] at hmem
    obtain ⟨p, hp, hpa⟩ := List.mem_filterMap.mp hmem
    exact ⟨p, hp, hpa, group_artifact_name groups.length p.1 p.2 a hpa⟩
  · intro tg idx g a hga
    by_cases hgne : g = []
    · simp [ImageStitcher.group_artifact, hgne] at hga
    · cases hmw : ImageStitcher.min_width (ImageStitcher.survivors g) with
      | inf => simp [ImageStitcher.group_artifact, hgne, hmw] at hga
      | fin t =>
        simp only [ImageStitcher.group_artifact, if_neg hgne, hmw,
          Option.some.injEq] at hga
        rw [← hga]
        rfl

/-- C4 amended witness: instantiation at the two-group job whose first
group is undersized. -/
theorem c4_naming_amended_witness :
    (∀ i : Nat, (fun _ : Nat => true) i = true)
    ∧ ([[some (Img.mk 1 1)], [some (Img.mk 1 1), some (Img.mk 2 2)]]
        : List (List Member)) ≠ []
    ∧ ((∀ a ∈ (ImageStitcherThread.run
          [[some (Img.mk 1 1)], [some (Img.mk 1 1), some (Img.mk 2 2)]] true
          (fun _ => true)).artifacts,
        ∃ p, p ∈ withIdx 0
            [[some (Img.mk 1 1)], [some (Img.mk 1 1), some (Img.mk 2 2)]]
          ∧ ImageStitcherThread.group_artifact
              ([[some (Img.mk 1 1)], [some (Img.mk 1 1), some (Img.mk 2 2)]]
                : List (List Member)).length p.1 p.2 = some a
          ∧ a.name = (if ([[some (Img.mk 1 1)], [some (Img.mk 1 1), some (Img.mk 2 2)]]
                : List (List Member)).length = 1 then "stitched_long_image.jpg"
              else "stitched_long_image_part" ++ toString (p.1 + 1) ++ ".jpg"))
      ∧ (∀ (tg idx : Nat) (g : List Member) (a : Artifact),
          ImageStitcher.group_artifact tg idx g = some a →
          a.name = (if tg = 1 then "stitched_long_image.jpg"
              else "stitched_long_image_part" ++ toString (idx + 1) ++ ".jpg"))) :=
  ⟨fun _ => rfl, by decide,
    c4_naming_amended _ _ (fun _ => rfl) (by decide)⟩

/-- C5: on the job with a single group of two images that both load
successfully, the emitted progress sequence is 20, 40, 60, 80, 100, 120 —
the budget of `len(group) + 3 = 5` steps is exceeded because the resize
loop advances the counter once per image, so the emitted percentage
overshoots 100 instead of terminating at exactly 100 as the spec states
(the code contradicts its own step-budget comment). -/
theorem c5_progress_overflow :
    (ImageStitcherThread.run [[some (Img.mk 2 2), some (Img.mk 2 2)]] true
        (fun _ => true)).progressEvents = [20, 40, 60, 80, 100, 120]
    ∧ ∃ p ∈ (ImageStitcherThread.run [[some (Img.mk 2 2), some (Img.mk 2 2)]] true
        (fun _ => true)).progressEvents, 100 < p := by
  decide

/-- C6 counterexample: a luminance-alpha pixel with luminance 0 and alpha
0 (fully transparent black) should become white under the claimed
alpha-compositing over a white background, but the engine pastes LA images
with `mask=None`, so the result is black: the alpha channel is not used as
the blend mask for LA sources. -/
theorem c6_la_counterexample :
    ImageStitcherThread.normalizePix (SrcPix.la 0 0) = RGBPix.mk 0 0 0
    ∧ specNormalizePix (SrcPix.la 0 0) = RGBPix.mk 255 255 255
    ∧ ImageStitcherThread.normalizePix (SrcPix.la 0 0) ≠ specNormalizePix (SrcPix.la 0 0) := by
  decide

/-- C6 amended: both engines normalize identically; RGBA sources are
composited over opaque white using their own alpha as blend mask exactly
as the spec states; LA sources are pasted without a mask, so their alpha
is ignored and the luminance is replicated into the three channels;
sources in any other mode are converted to RGB; dimensions are always
preserved (no resampling). -/
theorem c6_normalize_amended :
    (∀ p : SrcPix, ImageStitcher.normalizePix p = ImageStitcherThread.normalizePix p)
    ∧ (∀ r g b a : Nat, ImageStitcherThread.normalizePix (SrcPix.rgba r g b a)
        = specNormalizePix (SrcPix.rgba r g b a))
    ∧ (∀ l a a' : Nat, ImageStitcherThread.normalizePix (SrcPix.la l a)
        = ImageStitcherThread.normalizePix (SrcPix.la l a'))
    ∧ (∀ l a : Nat, ImageStitcherThread.normalizePix (SrcPix.la l a)
        = toRGB (SrcPix.la l a))
    ∧ (∀ r g b : Nat, ImageStitcherThread.normalizePix (SrcPix.other r g b)
        = toRGB (SrcPix.other r g b))
    ∧ (∀ img : SrcImage, (ImageStitcherThread.normalize img).width = img.width
        ∧ (ImageStitcherThread.normalize img).height = img.height) :=
  ⟨fun _ => rfl, fun _ _ _ _ => rfl, fun _ _ _ => rfl, fun _ _ => rfl,
    fun _ _ _ => rfl, fun _ => ⟨rfl, rfl⟩⟩

/-- C7: the run succeeds exactly when the output directory could be
created, the job supplied at least one group, and every save that is
attempted (one per group with at least 2 supplied members and at least 1
survivor) succeeds; an empty job, a directory failure or a save failure
yields a failed result that carries a non-empty message, and per-image or
per-group problems alone never yield a failed result. -/
theorem c7_failure_policy (groups : List (List Member)) (mk : Bool) (wk : Nat → Bool) :
    ((ImageStitcherThread.run groups mk wk).ok = true
      ↔ (mk = true ∧ groups ≠ []
        ∧ ∀ p ∈ withIdx 0 groups, validGroup p.2 = true → wk p.1 = true))
    ∧ ((ImageStitcherThread.run groups mk wk).ok = false →
        (ImageStitcherThread.run groups mk wk).msg ≠ "") := by
  cases mk with
  | false =>
    refine ⟨by simp [ImageStitcherThread.run],
      fun _ => by show ("mkdir raised" : String) ≠ ""; decide⟩
  | true =>
    by_cases hlen : groups.length = 0
    · have hnil := List.length_eq_zero.mp hlen
      subst hnil
      refine ⟨by simp [ImageStitcherThread.run],
        fun _ => by show ("no groups" : String) ≠ ""; decide⟩
    · have hne : groups ≠ [] := fun h => hlen (by rw [h]; rfl)
      have hiff := main_loop_err_iff (ImageStitcherThread.total_steps groups)
        groups.length wk groups 0 0
      constructor
      · unfold ImageStitcherThread.run
        rw [if_neg (by simp : ¬ (true = false)), if_neg hlen]
        cases herr : (ImageStitcherThread.main_loop (ImageStitcherThread.total_steps groups)
            groups.length wk groups 0 0).err with
        | none =>
          simp only [herr]
          constructor
          · intro _
            exact ⟨trivial, hne, hiff.mp herr⟩
          · intro _
            trivial
        | some m =>
          simp only [herr]
          constructor
          · intro h
            simp at h
          · rintro ⟨-, -, hall⟩
            have h := hiff.mpr hall
            rw [herr] at h
            simp at h
      · intro hok
        unfold ImageStitcherThread.run at hok ⊢
        rw [if_neg (by simp : ¬ (true = false)), if_neg hlen] at hok ⊢
        cases herr : (ImageStitcherThread.main_loop (ImageStitcherThread.total_steps groups)
            groups.length wk groups 0 0).err with
        | none =>
          simp only [herr] at hok
          simp at hok
        | some m =>
          simp only [herr]
          have hm := main_loop_err_msg (ImageStitcherThread.total_steps groups)
            groups.length wk groups 0 0 m herr
          rw [hm]
          decide

/-- C9: whenever any progress percentage is emitted at all, some group of
at least 2 members exists in the job, so `total_steps` — the denominator
of every emitted `int(current_step / total_steps * 100)` — is at least 5
and the division never divides by zero. -/
theorem c9_progress_denominator (groups : List (List Member)) (mk : Bool) (wk : Nat → Bool)
    (h : (ImageStitcherThread.run groups mk wk).progressEvents ≠ []) :
    5 ≤ ImageStitcherThread.total_steps groups := by
  have hloop : (ImageStitcherThread.main_loop (ImageStitcherThread.total_steps groups)
      groups.length wk groups 0 0).evs ≠ [] := by
    cases mk with
    | false => exact absurd rfl h
    | true =>
      by_cases hlen : groups.length = 0
      · refine absurd ?_ h
        unfold ImageStitcherThread.run
        rw [if_neg (by simp : ¬ (true = false)), if_pos hlen]
      · intro hevs
        apply h
        unfold ImageStitcherThread.run
        rw [if_neg (by simp : ¬ (true = false)), if_neg hlen]
        cases herr : (ImageStitcherThread.main_loop (ImageStitcherThread.total_steps groups)
            groups.length wk groups 0 0).err with
        | none => simp only [herr]; exact hevs
        | some m => simp only [herr]; exact hevs
  obtain ⟨g, hg, h2⟩ := main_loop_evs_group (ImageStitcherThread.total_steps groups)
    groups.length wk groups 0 0 hloop
  have := total_steps_ge groups g hg h2
  omega

/-- C9 witness: the single-group job of two decodable images emits
progress, and its `total_steps` is 5. -/
theorem c9_progress_denominator_witness :
    (ImageStitcherThread.run [[some (Img.mk 2 2), some (Img.mk 2 2)]] true
        (fun _ => true)).progressEvents ≠ []
    ∧ 5 ≤ ImageStitcherThread.total_steps [[some (Img.mk 2 2), some (Img.mk 2 2)]] :=
  ⟨by decide, c9_progress_denominator _ true (fun _ => true) (by decide)⟩

/-- C8 witness: instantiation at the group of 2×3 and 3×5 images. -/
theorem c8_engine_agreement_witness :
    2 ≤ ([Img.mk 2 3, Img.mk 3 5] : List Img).length
    ∧ (ImageStitcher.group_artifact 1 0 ([Img.mk 2 3, Img.mk 3 5].map some)
        = ImageStitcherThread.group_artifact 1 0 ([Img.mk 2 3, Img.mk 3 5].map some)
      ∧ ∃ a, ImageStitcherThread.group_artifact 1 0 ([Img.mk 2 3, Img.mk 3 5].map some)
            = some a
          ∧ a.width ∈ [Img.mk 2 3, Img.mk 3 5].map Img.width
          ∧ a.heights = [Img.mk 2 3, Img.mk 3 5].map (ImageStitcherThread.new_height a.width)
          ∧ a.name = ImageStitcherThread.output_name 1 0) :=
  ⟨by decide, c8_engine_agreement 1 0 [Img.mk 2 3, Img.mk 3 5] (by decide)⟩

end MomentStitcher
